import Mathlib

/-!
Verification of the Git source handler
(`snapcraft_legacy/internal/sources/_git.py`).

The module is embedded shallowly: subprocess invocations are modelled by a
`Runner` environment mapping a command line (a list of strings) to an exit
code and captured output, and each method is translated into a pure function
that either computes the exact sequence of command lines the method issues,
or computes its result from the runner's answers.  Strings produced by
subprocesses are taken to be already decoded and stripped, as the Python
code does immediately at each call site.
-/

namespace GitSource

/-! ## Version derivation (`Git.generate_version`)

`generate_version` runs `git describe --dirty`; on success it matches the
output against the anchored pattern
`^(?P<tag>[a-zA-Z0-9.+~-]+)-(?P<revs_ahead>\d+)-g(?P<commit>[0-9a-fA-F]+(?:-dirty)?)$`.
The matcher below reproduces the backtracking semantics of that pattern:
the `tag` group is greedy over its character class, so tag lengths are tried
from longest to shortest; the `revs_ahead` and `commit` groups are followed
by characters outside their own classes, so inside a fixed tag split they
are the maximal runs of their classes, and the optional `-dirty` suffix is
taken exactly when it is what remains.
-/

/-- The character class `[a-zA-Z0-9.+~-]` of the `tag` capture group. -/
def isTagChar (c : Char) : Bool :=
  c.isAlphanum || c == '.' || c == '+' || c == '~' || c == '-'

/-- The character class `[0-9a-fA-F]` of the `commit` capture group. -/
def isHexChar (c : Char) : Bool :=
  c.isDigit || (('a' ≤ c) && (c ≤ 'f')) || (('A' ≤ c) && (c ≤ 'F'))

/-- The literal `-dirty` suffix optionally captured into the commit group. -/
def dirtyChars : List Char := "-dirty".toList

/-- The part of the describe pattern after the literal `-g`: a maximal
nonempty hex run followed by an optional `-dirty` and the end of the
string.  Inside a fixed tag split the hex run cannot backtrack (a shorter
run would leave a hex character where `-` or the end is required), so the
greedy semantics is exactly "maximal run, then the remainder is empty or
`-dirty`".  Returns the captured `commit` group, dirty suffix included. -/
def checkTail3 (r3 : List Char) : Option (List Char) :=
  if r3.takeWhile isHexChar = [] then none
  else if r3.dropWhile isHexChar = [] ∨ r3.dropWhile isHexChar = dirtyChars then
    some (r3.takeWhile isHexChar ++ r3.dropWhile isHexChar)
  else none

/-- The part of the describe pattern after the `tag` group's `-`: a maximal
nonempty digit run `revs_ahead` (no backtracking is possible: a shorter run
would leave a digit where the literal `-` is required), the literal `-g`,
then `checkTail3`.  Returns the captured `revs_ahead` and `commit`. -/
def checkTail2 (r2 : List Char) : Option (List Char × List Char) :=
  if r2.takeWhile Char.isDigit = [] then none
  else
    match r2.dropWhile Char.isDigit with
    | c1 :: c2 :: r3 =>
      if c1 = '-' ∧ c2 = 'g' then
        (checkTail3 r3).map (fun c => (r2.takeWhile Char.isDigit, c))
      else none
    | _ => none

/-- One backtracking attempt of the describe pattern with the `tag` group
bound to the first `k` characters: checks the tag characters, the literal
`-`, then the rest of the pattern.  Returns the three captured groups (the
commit group includes the `-dirty` suffix when present, exactly as the
regex captures it). -/
def checkSplit (s : List Char) (k : Nat) : Option (List Char × List Char × List Char) :=
  if k = 0 then none
  else if (s.take k).all isTagChar then
    match s.drop k with
    | c :: r2 =>
      if c = '-' then (checkTail2 r2).map (fun p => (s.take k, p.1, p.2))
      else none
    | _ => none
  else none

/-- Greedy search over tag lengths, longest first, as the backtracking
regex engine performs it. -/
def findMatch (s : List Char) : Nat → Option (List Char × List Char × List Char)
  | 0 => none
  | Nat.succ k =>
    match checkSplit s (k + 1) with
    | some r => some r
    | none => findMatch s k

/-- Full-string match of the describe pattern, returning the captured
`tag`, `revs_ahead`, and `commit` groups. -/
def matchDescribe (s : List Char) : Option (List Char × List Char × List Char) :=
  findMatch s s.length

/-- The tail of the successful branch of `Git.generate_version`: on a match
return `"{tag}+git{revs_ahead}.{commit}"`, otherwise the describe output is
a pure tag and is returned verbatim. -/
def describe_to_version (output : String) : String :=
  match matchDescribe output.toList with
  | none => output
  | some (tag, revs_ahead, commit) =>
    String.mk (tag ++ "+git".toList ++ revs_ahead ++ ".".toList ++ commit)

/-- Outcome of `Git.generate_version`: a version string, or the
`errors.VCSError` (the spec's `NotAVersionControlledTree`) carrying the
fallback query's stderr. -/
inductive GenerateVersionResult where
  | version (v : String)
  | vcsError (message : String)
deriving DecidableEq, Repr

/-- Result of the fallback `git describe --dirty --always` invocation run
through `subprocess.Popen`: return code plus decoded, stripped stdout and
stderr. -/
structure FallbackResult where
  returncode : Int
  stdout : String
  stderr : String

/-- `Git.generate_version` as a function of its two subprocess outcomes:
`primary` is the result of `git describe --dirty` (`some` output on exit 0,
`none` when `check_output` raised `CalledProcessError`), `fallback` the
result of `git describe --dirty --always` (consulted only when the primary
query failed). -/
def generate_version (primary : Option String) (fallback : FallbackResult) :
    GenerateVersionResult :=
  match primary with
  | some output => .version (describe_to_version output)
  | none =>
    if fallback.returncode ≠ 0 then .vcsError fallback.stderr
    else .version ("0+git." ++ fallback.stdout)

/-- The optional dirty suffix of the commit group: absent or `-dirty`. -/
def IsDirtyTail (d : List Char) : Prop := d = [] ∨ d = dirtyChars

/-- `s` decomposes as `<tag>-<N>-g<commit>[-dirty]` with groups `t`, `n`,
hex part `h` and dirty suffix `d`. -/
def ValidDecomp (t n h d s : List Char) : Prop :=
  t ≠ [] ∧ t.all isTagChar = true ∧
  n ≠ [] ∧ n.all Char.isDigit = true ∧
  h ≠ [] ∧ h.all isHexChar = true ∧
  IsDirtyTail d ∧
  s = t ++ '-' :: (n ++ '-' :: 'g' :: (h ++ d))

/-- The describe output has the shape `<tag>-<N>-g<commit>[-dirty]`. -/
def IsDescribeForm (s : List Char) : Prop :=
  ∃ t n h d, ValidDecomp t n h d s

/-! ### List helper lemmas for the matcher -/

theorem all_takeWhile_true {α : Type} (p : α → Bool) :
    ∀ l : List α, ((l.takeWhile p).all p) = true
  | [] => rfl
  | a :: l => by
    rw [List.takeWhile_cons]
    cases h : p a with
    | false => rfl
    | true => simp [h, all_takeWhile_true p l]

theorem takeWhile_of_all {α : Type} (p : α → Bool) :
    ∀ l : List α, l.all p = true → l.takeWhile p = l
  | [], _ => rfl
  | a :: l, h => by
    simp only [List.all_cons, Bool.and_eq_true] at h
    rw [List.takeWhile_cons, h.1]
    simp [takeWhile_of_all p l h.2]

theorem dropWhile_of_all {α : Type} (p : α → Bool) :
    ∀ l : List α, l.all p = true → l.dropWhile p = []
  | [], _ => rfl
  | a :: l, h => by
    simp only [List.all_cons, Bool.and_eq_true] at h
    rw [List.dropWhile_cons, h.1]
    simp [dropWhile_of_all p l h.2]

theorem takeWhile_append_cons {α : Type} (p : α → Bool) (a : List α) (b : α) (r : List α)
    (h1 : a.all p = true) (h2 : p b = false) :
    (a ++ b :: r).takeWhile p = a := by
  induction a with
  | nil => simp [List.takeWhile_cons, h2]
  | cons x xs ih =>
    simp only [List.all_cons, Bool.and_eq_true] at h1
    simp [List.takeWhile_cons, h1.1, ih h1.2]

theorem dropWhile_append_cons {α : Type} (p : α → Bool) (a : List α) (b : α) (r : List α)
    (h1 : a.all p = true) (h2 : p b = false) :
    (a ++ b :: r).dropWhile p = b :: r := by
  induction a with
  | nil => simp [List.dropWhile_cons, h2]
  | cons x xs ih =>
    simp only [List.all_cons, Bool.and_eq_true] at h1
    simp [List.dropWhile_cons, h1.1, ih h1.2]

/-! ### Soundness and completeness of the matcher -/

theorem checkTail3_sound {r3 c : List Char} (h : checkTail3 r3 = some c) :
    ∃ hx d, hx ≠ [] ∧ hx.all isHexChar = true ∧ IsDirtyTail d ∧
      r3 = hx ++ d ∧ c = hx ++ d := by
  unfold checkTail3 at h
  split at h
  · exact absurd h (by simp)
  next hh =>
    split at h
    next hd =>
      refine ⟨r3.takeWhile isHexChar, r3.dropWhile isHexChar, hh,
        all_takeWhile_true isHexChar r3, hd,
        (List.takeWhile_append_dropWhile isHexChar r3).symm, ?_⟩
      simpa using h.symm
    · exact absurd h (by simp)

theorem checkTail3_complete {hx d : List Char} (hh : hx ≠ [])
    (hhex : hx.all isHexChar = true) (hd : IsDirtyTail d) :
    checkTail3 (hx ++ d) = some (hx ++ d) := by
  have htw : (hx ++ d).takeWhile isHexChar = hx := by
    rcases hd with rfl | rfl
    · rw [List.append_nil]; exact takeWhile_of_all isHexChar hx hhex
    · exact takeWhile_append_cons isHexChar hx '-' "dirty".toList hhex (by decide)
  have hdw : (hx ++ d).dropWhile isHexChar = d := by
    rcases hd with rfl | rfl
    · rw [List.append_nil]; exact dropWhile_of_all isHexChar hx hhex
    · exact dropWhile_append_cons isHexChar hx '-' "dirty".toList hhex (by decide)
  unfold checkTail3
  rw [htw, hdw, if_neg hh, if_pos (show d = [] ∨ d = dirtyChars from hd)]

theorem checkTail2_sound {r2 : List Char} {n c : List Char}
    (h : checkTail2 r2 = some (n, c)) :
    ∃ hx d, n ≠ [] ∧ n.all Char.isDigit = true ∧ hx ≠ [] ∧
      hx.all isHexChar = true ∧ IsDirtyTail d ∧
      r2 = n ++ '-' :: 'g' :: (hx ++ d) ∧ c = hx ++ d := by
  unfold checkTail2 at h
  split at h
  · exact absurd h (by simp)
  next hn =>
    split at h
    next c1 c2 r3 heq =>
      split at h
      next hcg =>
        obtain ⟨hcg1, hcg2⟩ := hcg
        subst hcg1; subst hcg2
        simp only [Option.map_eq_some'] at h
        obtain ⟨c3, hc3, hpair⟩ := h
        obtain ⟨hx, d, h1, h2, h3, h4, h5⟩ := checkTail3_sound hc3
        injection hpair with hn1 hc1
        refine ⟨hx, d, by rw [← hn1]; exact hn, ?_, h1, h2, h3, ?_, by rw [← hc1, h5]⟩
        · rw [← hn1]; exact all_takeWhile_true Char.isDigit r2
        · conv_lhs => rw [← List.takeWhile_append_dropWhile Char.isDigit r2]
          rw [heq, hn1, h4]
      · exact absurd h (by simp)
    next => exact absurd h (by simp)

theorem checkTail2_complete {n hx d : List Char} (hn : n ≠ [])
    (hdig : n.all Char.isDigit = true) (hh : hx ≠ [])
    (hhex : hx.all isHexChar = true) (hd : IsDirtyTail d) :
    checkTail2 (n ++ '-' :: 'g' :: (hx ++ d)) = some (n, hx ++ d) := by
  have htw : (n ++ '-' :: 'g' :: (hx ++ d)).takeWhile Char.isDigit = n :=
    takeWhile_append_cons Char.isDigit n '-' ('g' :: (hx ++ d)) hdig (by decide)
  have hdw : (n ++ '-' :: 'g' :: (hx ++ d)).dropWhile Char.isDigit =
      '-' :: 'g' :: (hx ++ d) :=
    dropWhile_append_cons Char.isDigit n '-' ('g' :: (hx ++ d)) hdig (by decide)
  unfold checkTail2
  rw [htw, hdw, if_neg hn]
  simp only [if_pos (And.intro rfl rfl)]
  rw [checkTail3_complete hh hhex hd]
  rfl

theorem checkSplit_sound {s : List Char} {k : Nat} {t n c : List Char}
    (h : checkSplit s k = some (t, n, c)) :
    ∃ hx d, ValidDecomp t n hx d s ∧ c = hx ++ d := by
  unfold checkSplit at h
  split at h
  · exact absurd h (by simp)
  next hk =>
    split at h
    case isFalse => exact absurd h (by simp)
    next htag =>
      split at h
      next ch r2 heq =>
        split at h
        next hch =>
          subst hch
          simp only [Option.map_eq_some'] at h
          obtain ⟨⟨n2, c2⟩, hc2, hpair⟩ := h
          obtain ⟨hx, d, h1, h2, h3, h4, h5, h6, h7⟩ := checkTail2_sound hc2
          injection hpair with ht hrest
          injection hrest with hn2 hc
          have ht2 : List.take k s = t := ht
          have hn3 : n2 = n := hn2
          have hc3 : c2 = c := hc
          subst hn3; subst hc3
          refine ⟨hx, d, ⟨?_, by rw [ht2] at htag; exact htag, h1, h2, h3, h4, h5, ?_⟩, h7⟩
          · intro h0
            rw [h0] at ht2
            rcases List.take_eq_nil_iff.mp ht2 with h9 | h9
            · exact hk h9
            · rw [h9, List.drop_nil] at heq
              exact List.noConfusion heq
          · conv_lhs => rw [← List.take_append_drop k s]
            rw [heq, ht2, h6]
        · exact absurd h (by simp)
      next => exact absurd h (by simp)

theorem checkSplit_complete {t n hx d s : List Char}
    (hv : ValidDecomp t n hx d s) :
    checkSplit s t.length = some (t, n, hx ++ d) := by
  obtain ⟨ht, htag, hn, hdig, hh, hhex, hd, hs⟩ := hv
  have hk : t.length ≠ 0 := by
    intro h0
    exact ht (List.eq_nil_of_length_eq_zero h0)
  have htake : s.take t.length = t := by
    rw [hs]; exact List.take_left t _
  have hdrop : s.drop t.length = '-' :: (n ++ '-' :: 'g' :: (hx ++ d)) := by
    rw [hs]; exact List.drop_left t _
  unfold checkSplit
  rw [if_neg hk, htake, htag, if_pos rfl, hdrop]
  simp only [if_pos rfl]
  rw [checkTail2_complete hn hdig hh hhex hd]
  rfl

theorem findMatch_sound {s : List Char} {r : List Char × List Char × List Char}
    {k : Nat} (h : findMatch s k = some r) :
    ∃ j, 1 ≤ j ∧ j ≤ k ∧ checkSplit s j = some r := by
  induction k with
  | zero => simp [findMatch] at h
  | succ k ih =>
    rw [findMatch] at h
    split at h
    next heq => exact ⟨k + 1, by omega, Nat.le_refl _, heq.trans h⟩
    next => obtain ⟨j, h1, h2, h3⟩ := ih h; exact ⟨j, h1, by omega, h3⟩

theorem findMatch_none {s : List Char} {k : Nat} (h : findMatch s k = none) :
    ∀ j, 1 ≤ j → j ≤ k → checkSplit s j = none := by
  induction k with
  | zero => intro j h1 h2; omega
  | succ k ih =>
    rw [findMatch] at h
    split at h
    next => exact absurd h (by simp)
    next heq =>
      intro j h1 h2
      rcases Nat.eq_or_lt_of_le h2 with rfl | hlt
      · exact heq
      · exact ih h j h1 (by omega)

theorem matchDescribe_sound {s t n c : List Char}
    (h : matchDescribe s = some (t, n, c)) :
    ∃ hx d, ValidDecomp t n hx d s ∧ c = hx ++ d := by
  obtain ⟨j, _, _, h3⟩ := findMatch_sound h
  exact checkSplit_sound h3

theorem matchDescribe_isSome {t n hx d s : List Char}
    (hv : ValidDecomp t n hx d s) : matchDescribe s ≠ none := by
  intro hnone
  have hs := hv.2.2.2.2.2.2.2
  have ht := hv.1
  have hlen : t.length ≤ s.length := by
    rw [hs, List.length_append]; omega
  have h1 : 1 ≤ t.length := by
    rcases Nat.eq_zero_or_pos t.length with h0 | h0
    · exact absurd (List.eq_nil_of_length_eq_zero h0) ht
    · exact h0
  have hnone2 := findMatch_none hnone t.length h1 hlen
  rw [checkSplit_complete hv] at hnone2
  exact Option.noConfusion hnone2

/-! ## The Git source object

`Git.__init__` stores the spec fields (via `Base.__init__`, with
`self.command = "git"`).  Optional string fields are `Option String`; the
Python code only ever tests them for truthiness (`None` and `""` are both
falsy), which `truthy` reproduces. -/

structure GitSrc where
  source : String
  source_dir : String
  source_tag : Option String := none
  source_commit : Option String := none
  source_branch : Option String := none
  source_depth : Option Nat := none
  source_checksum : Option String := none
  source_submodules : Option (List String) := none

/-- Python truthiness of an optional string: `None` and `""` are falsy. -/
def truthy : Option String → Bool
  | none => false
  | some v => !(v == "")

/-- The two error classes raised by `Git.__init__`
(`errors.SnapcraftSourceIncompatibleOptionsError` and
`errors.SnapcraftSourceInvalidOptionError`); the spec groups both under
`ConfigConflict`. -/
inductive InitError where
  | incompatibleOptions (source_type : String) (options : List String)
  | invalidOption (source_type : String) (option : String)
deriving DecidableEq, Repr

/-- The validation chain of `Git.__init__`: pairwise conflicts among
tag/branch/commit, then the checksum rejection.  Returns the raised error
if any, `none` when construction succeeds. -/
def git_init_check (s : GitSrc) : Option InitError :=
  if truthy s.source_tag && truthy s.source_branch then
    some (.incompatibleOptions "git" ["source-tag", "source-branch"])
  else if truthy s.source_tag && truthy s.source_commit then
    some (.incompatibleOptions "git" ["source-tag", "source-commit"])
  else if truthy s.source_branch && truthy s.source_commit then
    some (.incompatibleOptions "git" ["source-branch", "source-commit"])
  else if truthy s.source_checksum then
    some (.invalidOption "git" "source-checksum")
  else none

/-! ## Subprocess environment -/

/-- Outcome of one external invocation: exit code and captured, decoded
output. -/
structure RunResult where
  exit_code : Int
  output : String

/-- The environment: what each command line would return if invoked. -/
def Runner : Type := List String → RunResult

/-- `errors.GitCommandError` (the spec's `SourceCommandError`): command
line, exit code, captured output. -/
structure GitCommandError where
  command : List String
  exit_code : Int
  output : String
deriving DecidableEq, Repr

/-- `Git._run_git_command`: invoke once through `subprocess.check_output`;
on a non-zero exit raise `GitCommandError` with the command, the exit code
and the captured output.  The first component is the trace of invocations
actually performed (always exactly one — the command is never retried). -/
def run_git_command (r : Runner) (command : List String) :
    List (List String) × Option GitCommandError :=
  let res := r command
  if res.exit_code ≠ 0 then
    ([command], some ⟨command, res.exit_code, res.output⟩)
  else ([command], none)

/-- Modelled from the spec: `Base._run` (the base class is outside the
sources given here).  "Any non-zero exit from the underlying
version-control invocation fails with a `SourceCommandError` carrying the
command line, exit code, and captured output." -/
def base_run (r : Runner) (cmd : List String) : Except GitCommandError Unit :=
  let res := r cmd
  if res.exit_code ≠ 0 then .error ⟨cmd, res.exit_code, res.output⟩ else .ok ()

/-- Modelled from the spec: `Base._run_output` (outside the sources given
here) — run a command, return its captured output, failing like
`Base._run` on a non-zero exit. -/
def run_output (r : Runner) (cmd : List String) : Except GitCommandError String :=
  let res := r cmd
  if res.exit_code ≠ 0 then .error ⟨cmd, res.exit_code, res.output⟩ else .ok res.output

/-- Run a sequence of commands in order, stopping at the first failure. -/
def runCommands (r : Runner) : List (List String) → Except GitCommandError Unit
  | [] => .ok ()
  | c :: rest =>
    match base_run r c with
    | .error e => .error e
    | .ok _ => runCommands r rest

/-! ## The update-in-place sequence (`Git._pull_existing`) -/

/-- The refspec resolution at the top of `_pull_existing`: explicit branch
ref, else explicit tag ref, else explicit commit, else symbolic `HEAD`. -/
def pull_existing_refspec (s : GitSrc) : String :=
  if truthy s.source_branch then "refs/heads/" ++ s.source_branch.getD ""
  else if truthy s.source_tag then "refs/tags/" ++ s.source_tag.getD ""
  else if truthy s.source_commit then s.source_commit.getD ""
  else "HEAD"

/-- `reset_spec = refspec if refspec != "HEAD" else "origin/master"`. -/
def pull_existing_reset_spec (s : GitSrc) : String :=
  if pull_existing_refspec s ≠ "HEAD" then pull_existing_refspec s
  else "origin/master"

/-- The repeated guard
`self.source_submodules is None or len(self.source_submodules) > 0`. -/
def submodules_in_scope (s : GitSrc) : Bool :=
  match s.source_submodules with
  | none => true
  | some l => decide (l.length > 0)

/-- `Git._fetch_origin_commit`:
`git -C <dir> fetch origin <commit>`. -/
def fetch_origin_commit_command (s : GitSrc) : List String :=
  ["git", "-C", s.source_dir, "fetch", "origin", s.source_commit.getD ""]

/-- The exact sequence of command lines `_pull_existing` issues, in order:
the preliminary fetch of the explicit commit when one (and no branch/tag)
is given, the pruning fetch (recursing into submodules unless an explicitly
empty submodule list was given), the hard reset to `reset_spec`, and the
submodule update (restricted to the named submodules when a non-empty list
was given). -/
def pull_existing_commands (s : GitSrc) : List (List String) :=
  (if !(truthy s.source_branch) && !(truthy s.source_tag) && truthy s.source_commit
   then [fetch_origin_commit_command s] else [])
  ++ [["git", "-C", s.source_dir, "fetch", "--prune"]
        ++ (if submodules_in_scope s then ["--recurse-submodules=yes"] else [])]
  ++ [["git", "-C", s.source_dir, "reset", "--hard", pull_existing_reset_spec s]]
  ++ (if submodules_in_scope s then
        [["git", "-C", s.source_dir, "submodule", "update", "--recursive", "--force"]
          ++ s.source_submodules.getD []]
      else [])

/-! ## The fresh-clone sequence (`Git._clone_new`) -/

/-- The submodule selectors of the clone command: `--recursive` when no
submodule list was supplied, else one `--recursive=<name>` per name
(none at all for an explicitly empty list). -/
def clone_submodule_args (s : GitSrc) : List String :=
  match s.source_submodules with
  | none => ["--recursive"]
  | some l => l.map (fun sub => "--recursive=" ++ sub)

/-- Python `self.source_tag or self.source_branch` under the guard that at
least one is truthy. -/
def tag_or_branch (s : GitSrc) : String :=
  if truthy s.source_tag then s.source_tag.getD "" else s.source_branch.getD ""

/-- The exact sequence of command lines `_clone_new` issues, in order: the
clone itself (with submodule selectors, `--branch` for a tag or branch,
`--depth` when a truthy depth is given), then, when an explicit commit was
requested, the fetch of that commit from `origin` and the checkout pinning
the tree to it. -/
def clone_new_commands (s : GitSrc) : List (List String) :=
  [["git", "clone"] ++ clone_submodule_args s
    ++ (if truthy s.source_tag || truthy s.source_branch then
          ["--branch", tag_or_branch s] else [])
    ++ (match s.source_depth with
        | none => []
        | some d => if d ≠ 0 then ["--depth", toString d] else [])
    ++ [s.source, s.source_dir]]
  ++ (if truthy s.source_commit then
        [fetch_origin_commit_command s,
         ["git", "-C", s.source_dir, "checkout", s.source_commit.getD ""]]
      else [])

/-! ## Source details and `Git.pull` -/

/-- `Git._get_source_details`: the mapping returned to the caller.  When no
tag, branch or commit is truthy, the commit is resolved by
`git -C <dir> rev-parse HEAD` (through `Base._run_output`, which can fail);
otherwise the spec's own fields are reported unchanged. -/
def get_source_details (r : Runner) (s : GitSrc) :
    Except GitCommandError (List (String × Option String)) :=
  (if !(truthy s.source_tag) && !(truthy s.source_branch) && !(truthy s.source_commit)
   then (run_output r ["git", "-C", s.source_dir, "rev-parse", "HEAD"]).map some
   else .ok s.source_commit).map
  (fun commit =>
    [("source-commit", commit),
     ("source-branch", s.source_branch),
     ("source", some s.source),
     ("source-tag", s.source_tag),
     ("source-checksum", s.source_checksum)])

/-- The mutable state `Git.pull` updates: the `source_details` attribute. -/
structure GitState where
  source_details : Option (List (String × Option String))
deriving DecidableEq, Repr

/-- `Git.pull`: run the update-in-place sequence when the target directory
is a checkout (`is_local`), else the fresh-clone sequence; only when every
command has succeeded, assign `source_details`.  An exception from any
command propagates and leaves the state unchanged. -/
def pull (r : Runner) (is_local : Bool) (s : GitSrc) (st : GitState) :
    GitState × Option GitCommandError :=
  match runCommands r (if is_local then pull_existing_commands s
                       else clone_new_commands s) with
  | .error e => (st, some e)
  | .ok _ =>
    match get_source_details r s with
    | .error e => (st, some e)
    | .ok d => (⟨some d⟩, none)

/-! ## `Git.add` and path normalization -/

/-- Split a character list on `/`, as Python's `str.split("/")`. -/
def splitSlash (acc : List Char) : List Char → List String
  | [] => [String.mk acc.reverse]
  | c :: rest =>
    if c = '/' then String.mk acc.reverse :: splitSlash [] rest
    else splitSlash (c :: acc) rest

/-- The components of a POSIX path, empty segments dropped. -/
def pathComponents (p : String) : List String :=
  (splitSlash [] p.toList).filter (fun c => c ≠ "")

/-- Length of the common prefix of two component lists. -/
def commonLen : List String → List String → Nat
  | a :: as, b :: bs => if a = b then commonLen as bs + 1 else 0
  | _, _ => 0

/-- Modelled from the behaviour of `os.path.relpath` on absolute,
already-normalized POSIX paths (the standard library function `Git.add`
calls): climb out of the uncommon part of `start` with `..` segments, then
descend into the uncommon part of `path`. -/
def relpath (path start : String) : String :=
  let pc := pathComponents path
  let sc := pathComponents start
  let i := commonLen pc sc
  let rel := List.replicate (sc.length - i) ".." ++ pc.drop i
  if rel = [] then "." else String.intercalate "/" rel

/-- `Git.add`: when the file path starts with the target directory
(`str.startswith`, a string-prefix test, modelled on the character lists),
replace it by its `os.path.relpath` relative form; then stage it. -/
def add_command (s : GitSrc) (file : String) : List String :=
  let f := if s.source_dir.toList.isPrefixOf file.toList
           then relpath file s.source_dir else file
  ["git", "-C", s.source_dir, "add", f]

/-- Modelled from the spec's phrase "when it falls under it": the file is
inside the target directory, i.e. the directory's path components are a
proper prefix of the file's. -/
def fallsUnderSpec (dir file : String) : Prop :=
  ∃ rest, pathComponents file = pathComponents dir ++ rest ∧ rest ≠ []

/-- Truthiness coincides with `isSome` for fields that are never the empty
string. -/
theorem truthy_eq_isSome {o : Option String} (h : o ≠ some "") :
    truthy o = o.isSome := by
  cases o with
  | none => rfl
  | some v =>
    have hv : v ≠ "" := fun e => h (by rw [e])
    simp [truthy, hv]

/-! ## Claims -/

/-- C2: for every describe output of the form `<tag>-<N>-g<commit>` with an
optional trailing `-dirty` marker, `derive_version` returns
`<tag>+git<N>.<commit>` with the `-dirty` marker concatenated onto the
commit component exactly as captured; every successful describe output not
of that form is returned verbatim as a bare tag. -/
theorem c2_describe_shapes (s : String) :
    (IsDescribeForm s.toList →
      ∃ t n hx d, ValidDecomp t n hx d s.toList ∧
        matchDescribe s.toList = some (t, n, hx ++ d) ∧
        describe_to_version s =
          String.mk (t ++ "+git".toList ++ n ++ ".".toList ++ (hx ++ d))) ∧
    (¬ IsDescribeForm s.toList → describe_to_version s = s) := by
  constructor
  · rintro ⟨t0, n0, h0, d0, hv0⟩
    have hsome := matchDescribe_isSome hv0
    cases hm : matchDescribe s.toList with
    | none => exact absurd hm hsome
    | some r =>
      obtain ⟨t, n, c⟩ := r
      obtain ⟨hx, d, hv, hc⟩ := matchDescribe_sound hm
      subst hc
      exact ⟨t, n, hx, d, hv, rfl, by simp only [describe_to_version, hm]⟩
  · intro hno
    cases hm : matchDescribe s.toList with
    | some r =>
      obtain ⟨t, n, c⟩ := r
      obtain ⟨hx, d, hv, _⟩ := matchDescribe_sound hm
      exact absurd ⟨t, n, hx, d, hv⟩ hno
    | none => simp only [describe_to_version, hm]

/-- Witness for C2 at the spec's dirty example: the describe output
`v1.2-3-gabc1234-dirty` has the tag-relative shape, and the theorem applies
to it. -/
theorem c2_describe_shapes_witness :
    IsDescribeForm ("v1.2-3-gabc1234-dirty").toList ∧
    (∃ t n hx d, ValidDecomp t n hx d ("v1.2-3-gabc1234-dirty").toList ∧
      matchDescribe ("v1.2-3-gabc1234-dirty").toList = some (t, n, hx ++ d) ∧
      describe_to_version "v1.2-3-gabc1234-dirty" =
        String.mk (t ++ "+git".toList ++ n ++ ".".toList ++ (hx ++ d))) := by
  have hform : IsDescribeForm ("v1.2-3-gabc1234-dirty").toList :=
    ⟨"v1.2".toList, "3".toList, "abc1234".toList, dirtyChars, by
      unfold ValidDecomp IsDirtyTail; decide⟩
  exact ⟨hform, (c2_describe_shapes "v1.2-3-gabc1234-dirty").1 hform⟩

/-- C3: when the primary describe query fails and the always-succeed
fallback returns a short commit hash (with the same dirty suffix behaviour,
since the fallback's output is concatenated verbatim), `generate_version`
returns `0+git.<shortcommit>`. -/
theorem c3_no_tag_fallback (fb : FallbackResult) (h : fb.returncode = 0) :
    generate_version none fb =
      GenerateVersionResult.version ("0+git." ++ fb.stdout) := by
  simp only [generate_version]
  rw [if_neg (fun hne => hne h)]

/-- Witness for C3 at the spec's example: no tags at all, short hash
`abc1234`. -/
theorem c3_no_tag_fallback_witness :
    generate_version none ⟨0, "abc1234", ""⟩ =
      GenerateVersionResult.version "0+git.abc1234" := by
  simpa using c3_no_tag_fallback ⟨0, "abc1234", ""⟩ rfl

/-- C7: `generate_version` fails with the `VCSError` (the spec's
`NotAVersionControlledTree`), carrying the fallback's diagnostic text, if
and only if the primary describe query failed and the always-succeed
fallback query also exited non-zero. -/
theorem c7_vcs_error_iff (primary : Option String) (fb : FallbackResult)
    (m : String) :
    generate_version primary fb = GenerateVersionResult.vcsError m ↔
      (primary = none ∧ fb.returncode ≠ 0 ∧ m = fb.stderr) := by
  cases primary with
  | some o => simp [generate_version]
  | none =>
    by_cases h : fb.returncode = 0
    · simp [generate_version, h]
    · simp [generate_version, h, eq_comm]

/-- C4: construction fails (with one of the two configuration-conflict
errors, the spec's `ConfigConflict`) if and only if two or more of
{tag, branch, commit} are supplied or a checksum is supplied; at most one
selector and no checksum constructs successfully.  Supplied fields are
assumed not to be the empty string (the code treats `""` like an absent
field). -/
theorem c4_construction_conflicts (s : GitSrc)
    (h1 : s.source_tag ≠ some "") (h2 : s.source_branch ≠ some "")
    (h3 : s.source_commit ≠ some "") (h4 : s.source_checksum ≠ some "") :
    (git_init_check s).isSome = true ↔
      ((s.source_tag.isSome = true ∧ s.source_branch.isSome = true) ∨
       (s.source_tag.isSome = true ∧ s.source_commit.isSome = true) ∨
       (s.source_branch.isSome = true ∧ s.source_commit.isSome = true) ∨
       s.source_checksum.isSome = true) := by
  obtain ⟨src, dir, tag, commit, branch, depth, checksum, subs⟩ := s
  simp only at h1 h2 h3 h4 ⊢
  rcases tag with _ | tv <;> rcases branch with _ | bv <;>
    rcases commit with _ | cv <;> rcases checksum with _ | kv <;>
    simp_all [git_init_check, truthy]

/-- Witness for C4: a spec with both a tag and a branch is rejected. -/
theorem c4_construction_conflicts_witness :
    (git_init_check ⟨"u", "d", some "v1", none, some "main", none, none,
      none⟩).isSome = true :=
  (c4_construction_conflicts ⟨"u", "d", some "v1", none, some "main", none,
      none, none⟩ (by simp) (by simp) (by simp) (by simp)).mpr
    (Or.inl ⟨rfl, rfl⟩)

/-- C6: a version-control invocation that exits non-zero fails with the
`GitCommandError` (the spec's `SourceCommandError`) carrying the exact
command list, the exit code and the captured output, and the command is
invoked exactly once (not retried). -/
theorem c6_nonzero_exit_error (r : Runner) (cmd : List String)
    (h : (r cmd).exit_code ≠ 0) :
    run_git_command r cmd =
      ([cmd], some ⟨cmd, (r cmd).exit_code, (r cmd).output⟩) := by
  simp only [run_git_command]
  rw [if_pos h]

/-- Witness for C6: a runner whose every invocation exits 1. -/
theorem c6_nonzero_exit_error_witness :
    run_git_command (fun _ => ⟨1, "boom"⟩) ["git", "fetch"] =
      ([["git", "fetch"]], some ⟨["git", "fetch"], 1, "boom"⟩) :=
  c6_nonzero_exit_error (fun _ => ⟨1, "boom"⟩) ["git", "fetch"] (by decide)

/-- A string with a proper prefix of length over 4 is not `"HEAD"`. -/
theorem long_append_ne_head {p : String} (b : String) (h : 4 < p.length) :
    p ++ b ≠ "HEAD" := by
  intro e
  have hl := congrArg String.length e
  rw [String.length_append] at hl
  have h4 : ("HEAD" : String).length = 4 := rfl
  rw [h4] at hl
  omega

/-- C1: in the update-in-place sequence, with no tag, branch or commit the
refspec resolves to the symbolic `HEAD` and the hard reset targets
`origin/master` (the tracking ref of the remote's default branch as the
code assumes it); an explicit branch resets to `refs/heads/<branch>`, an
explicit tag to `refs/tags/<tag>`, and an explicit commit (a hex id) is
reset to after first fetching exactly that commit from the remote named
`origin` as the very first command of the sequence. -/
theorem c1_pull_existing_resolution (s : GitSrc) :
    ((truthy s.source_branch = false ∧ truthy s.source_tag = false ∧
        truthy s.source_commit = false) →
      pull_existing_refspec s = "HEAD" ∧
      ["git", "-C", s.source_dir, "reset", "--hard", "origin/master"] ∈
        pull_existing_commands s) ∧
    (∀ b, s.source_branch = some b → b ≠ "" →
      pull_existing_refspec s = "refs/heads/" ++ b ∧
      ["git", "-C", s.source_dir, "reset", "--hard", "refs/heads/" ++ b] ∈
        pull_existing_commands s) ∧
    (∀ t, s.source_tag = some t → t ≠ "" → truthy s.source_branch = false →
      pull_existing_refspec s = "refs/tags/" ++ t ∧
      ["git", "-C", s.source_dir, "reset", "--hard", "refs/tags/" ++ t] ∈
        pull_existing_commands s) ∧
    (∀ c, s.source_commit = some c → c ≠ "" → c.toList.all isHexChar = true →
      truthy s.source_branch = false → truthy s.source_tag = false →
      pull_existing_refspec s = c ∧
      ∃ rest, pull_existing_commands s =
          ["git", "-C", s.source_dir, "fetch", "origin", c] :: rest ∧
        ["git", "-C", s.source_dir, "reset", "--hard", c] ∈ rest) := by
  refine ⟨?_, ?_, ?_, ?_⟩
  · rintro ⟨hb, ht, hc⟩
    have hrs : pull_existing_refspec s = "HEAD" := by
      simp [pull_existing_refspec, hb, ht, hc]
    refine ⟨hrs, ?_⟩
    have hreset : pull_existing_reset_spec s = "origin/master" := by
      simp [pull_existing_reset_spec, hrs]
    simp [pull_existing_commands, hb, ht, hc, hreset]
  · intro b hbv hbne
    have hb : truthy s.source_branch = true := by simp [truthy, hbv, hbne]
    have hrs : pull_existing_refspec s = "refs/heads/" ++ b := by
      simp [pull_existing_refspec, hbv, truthy, hbne]
    have hne : pull_existing_refspec s ≠ "HEAD" := by
      rw [hrs]; exact long_append_ne_head b (by decide)
    refine ⟨hrs, ?_⟩
    have hreset : pull_existing_reset_spec s = "refs/heads/" ++ b := by
      rw [pull_existing_reset_spec, if_pos hne, hrs]
    simp [pull_existing_commands, hb, hreset]
  · intro t htv htne hb
    have ht : truthy s.source_tag = true := by simp [truthy, htv, htne]
    have ht2 : truthy (some t) = true := by simp [truthy, htne]
    have hrs : pull_existing_refspec s = "refs/tags/" ++ t := by
      simp [pull_existing_refspec, hb, htv, ht2]
    have hne : pull_existing_refspec s ≠ "HEAD" := by
      rw [hrs]; exact long_append_ne_head t (by decide)
    refine ⟨hrs, ?_⟩
    have hreset : pull_existing_reset_spec s = "refs/tags/" ++ t := by
      rw [pull_existing_reset_spec, if_pos hne, hrs]
    simp [pull_existing_commands, hb, ht, hreset]
  · intro c hcv hcne hhex hb ht
    have hc : truthy s.source_commit = true := by simp [truthy, hcv, hcne]
    have hc2 : truthy (some c) = true := by simp [truthy, hcne]
    have hrs : pull_existing_refspec s = c := by
      simp [pull_existing_refspec, hb, ht, hcv, hc2]
    have hH : c ≠ "HEAD" := by
      intro e; subst e; exact absurd hhex (by decide)
    have hne : pull_existing_refspec s ≠ "HEAD" := by rw [hrs]; exact hH
    refine ⟨hrs, ?_⟩
    have hreset : pull_existing_reset_spec s = c := by
      rw [pull_existing_reset_spec, if_pos hne, hrs]
    have hfetch : fetch_origin_commit_command s =
        ["git", "-C", s.source_dir, "fetch", "origin", c] := by
      simp [fetch_origin_commit_command, hcv]
    refine ⟨(["git", "-C", s.source_dir, "fetch", "--prune"]
          ++ (if submodules_in_scope s then ["--recurse-submodules=yes"]
              else [])) ::
        ["git", "-C", s.source_dir, "reset", "--hard", c] ::
        (if submodules_in_scope s then
          [["git", "-C", s.source_dir, "submodule", "update", "--recursive",
            "--force"] ++ s.source_submodules.getD []]
         else []), ?_, ?_⟩
    · simp [pull_existing_commands, hb, ht, hc, hreset, hfetch]
    · simp

/-- Witness for C1: the four selector modes at concrete sources. -/
theorem c1_pull_existing_resolution_witness :
    (pull_existing_refspec ⟨"u", "d", none, none, none, none, none, none⟩ =
        "HEAD" ∧
      ["git", "-C", "d", "reset", "--hard", "origin/master"] ∈
        pull_existing_commands ⟨"u", "d", none, none, none, none, none, none⟩) ∧
    (pull_existing_refspec ⟨"u", "d", none, none, some "main", none, none,
        none⟩ = "refs/heads/" ++ "main" ∧
      ["git", "-C", "d", "reset", "--hard", "refs/heads/" ++ "main"] ∈
        pull_existing_commands
          ⟨"u", "d", none, none, some "main", none, none, none⟩) ∧
    (pull_existing_refspec ⟨"u", "d", some "v1.2", none, none, none, none,
        none⟩ = "refs/tags/" ++ "v1.2" ∧
      ["git", "-C", "d", "reset", "--hard", "refs/tags/" ++ "v1.2"] ∈
        pull_existing_commands
          ⟨"u", "d", some "v1.2", none, none, none, none, none⟩) ∧
    (pull_existing_refspec ⟨"u", "d", none, some "abc1234", none, none, none,
        none⟩ = "abc1234" ∧
      ∃ rest, pull_existing_commands
          ⟨"u", "d", none, some "abc1234", none, none, none, none⟩ =
          ["git", "-C", "d", "fetch", "origin", "abc1234"] :: rest ∧
        ["git", "-C", "d", "reset", "--hard", "abc1234"] ∈ rest) :=
  ⟨(c1_pull_existing_resolution ⟨"u", "d", none, none, none, none, none,
      none⟩).1 ⟨rfl, rfl, rfl⟩,
   (c1_pull_existing_resolution ⟨"u", "d", none, none, some "main", none,
      none, none⟩).2.1 "main" rfl (by decide),
   (c1_pull_existing_resolution ⟨"u", "d", some "v1.2", none, none, none,
      none, none⟩).2.2.1 "v1.2" rfl (by decide) rfl,
   (c1_pull_existing_resolution ⟨"u", "d", none, some "abc1234", none, none,
      none, none⟩).2.2.2 "abc1234" rfl (by decide) (by decide) rfl rfl⟩

/-- C5: in both reconciliation paths, an explicitly empty submodule list
suppresses every submodule fetch/update step; a non-empty list restricts
the submodule update to exactly the named submodules and the clone to one
`--recursive=<name>` selector per name; an unspecified (`None`) selection
recurses into all submodules. -/
theorem c5_submodule_selection (s : GitSrc) :
    (s.source_submodules = some [] →
      ["git", "-C", s.source_dir, "fetch", "--prune"] ∈
        pull_existing_commands s ∧
      ["git", "-C", s.source_dir, "fetch", "--prune",
        "--recurse-submodules=yes"] ∉ pull_existing_commands s ∧
      (∀ cmd ∈ pull_existing_commands s, cmd.get? 3 ≠ some "submodule") ∧
      clone_submodule_args s = []) ∧
    (∀ l, s.source_submodules = some l → l ≠ [] →
      ["git", "-C", s.source_dir, "fetch", "--prune",
        "--recurse-submodules=yes"] ∈ pull_existing_commands s ∧
      (["git", "-C", s.source_dir, "submodule", "update", "--recursive",
        "--force"] ++ l) ∈ pull_existing_commands s ∧
      clone_submodule_args s = l.map (fun m => "--recursive=" ++ m)) ∧
    (s.source_submodules = none →
      ["git", "-C", s.source_dir, "fetch", "--prune",
        "--recurse-submodules=yes"] ∈ pull_existing_commands s ∧
      ["git", "-C", s.source_dir, "submodule", "update", "--recursive",
        "--force"] ∈ pull_existing_commands s ∧
      clone_submodule_args s = ["--recursive"]) := by
  refine ⟨?_, ?_, ?_⟩
  · intro hsub
    have hscope : submodules_in_scope s = false := by
      simp [submodules_in_scope, hsub]
    refine ⟨?_, ?_, ?_, ?_⟩
    · cases hB : (!(truthy s.source_branch) && !(truthy s.source_tag) &&
          truthy s.source_commit) <;>
        simp [pull_existing_commands, hB, hscope]
    · cases hB : (!(truthy s.source_branch) && !(truthy s.source_tag) &&
          truthy s.source_commit) <;>
        simp [pull_existing_commands, hB, hscope, fetch_origin_commit_command]
    · intro cmd hcmd
      cases hB : (!(truthy s.source_branch) && !(truthy s.source_tag) &&
          truthy s.source_commit) with
      | true =>
        simp [pull_existing_commands, hB, hscope,
          fetch_origin_commit_command] at hcmd
        rcases hcmd with rfl | rfl | rfl <;> simp
      | false =>
        simp [pull_existing_commands, hB, hscope] at hcmd
        rcases hcmd with rfl | rfl <;> simp
    · simp [clone_submodule_args, hsub]
  · intro l hsub hl
    have hscope : submodules_in_scope s = true := by
      simp [submodules_in_scope, hsub, List.length_pos, hl]
    refine ⟨?_, ?_, ?_⟩
    · simp [pull_existing_commands, hscope]
    · simp [pull_existing_commands, hscope, hsub]
    · simp [clone_submodule_args, hsub]
  · intro hsub
    have hscope : submodules_in_scope s = true := by
      simp [submodules_in_scope, hsub]
    refine ⟨?_, ?_, ?_⟩
    · simp [pull_existing_commands, hscope]
    · simp [pull_existing_commands, hscope, hsub]
    · simp [clone_submodule_args, hsub]

/-- Witness for C5: the three submodule-selection modes at concrete
sources. -/
theorem c5_submodule_selection_witness :
    (["git", "-C", "d", "fetch", "--prune"] ∈
        pull_existing_commands
          ⟨"u", "d", none, none, none, none, none, some []⟩ ∧
      ["git", "-C", "d", "fetch", "--prune", "--recurse-submodules=yes"] ∉
        pull_existing_commands
          ⟨"u", "d", none, none, none, none, none, some []⟩ ∧
      (∀ cmd ∈ pull_existing_commands
          ⟨"u", "d", none, none, none, none, none, some []⟩,
        cmd.get? 3 ≠ some "submodule") ∧
      clone_submodule_args ⟨"u", "d", none, none, none, none, none, some []⟩ =
        []) ∧
    (["git", "-C", "d", "fetch", "--prune", "--recurse-submodules=yes"] ∈
        pull_existing_commands
          ⟨"u", "d", none, none, none, none, none, some ["m1", "m2"]⟩ ∧
      (["git", "-C", "d", "submodule", "update", "--recursive", "--force"]
        ++ ["m1", "m2"]) ∈
        pull_existing_commands
          ⟨"u", "d", none, none, none, none, none, some ["m1", "m2"]⟩ ∧
      clone_submodule_args
          ⟨"u", "d", none, none, none, none, none, some ["m1", "m2"]⟩ =
        ["m1", "m2"].map (fun m => "--recursive=" ++ m)) ∧
    (["git", "-C", "d", "fetch", "--prune", "--recurse-submodules=yes"] ∈
        pull_existing_commands ⟨"u", "d", none, none, none, none, none, none⟩ ∧
      ["git", "-C", "d", "submodule", "update", "--recursive", "--force"] ∈
        pull_existing_commands ⟨"u", "d", none, none, none, none, none, none⟩ ∧
      clone_submodule_args ⟨"u", "d", none, none, none, none, none, none⟩ =
        ["--recursive"]) :=
  ⟨(c5_submodule_selection ⟨"u", "d", none, none, none, none, none,
      some []⟩).1 rfl,
   (c5_submodule_selection ⟨"u", "d", none, none, none, none, none,
      some ["m1", "m2"]⟩).2.1 ["m1", "m2"] rfl (by decide),
   (c5_submodule_selection ⟨"u", "d", none, none, none, none, none,
      none⟩).2.2 rfl⟩

/-- C8: a successful `_get_source_details` returns a mapping with exactly
the keys `source-commit`, `source-branch`, `source`, `source-tag`,
`source-checksum` in that order; for a successfully constructed Git source
the checksum entry is always null; and when no tag, branch or commit
selector was given, the commit entry is the output of
`git -C <dir> rev-parse HEAD` on the working tree. -/
theorem c8_source_details_shape (r : Runner) (s : GitSrc)
    (d : List (String × Option String))
    (hok : get_source_details r s = Except.ok d)
    (hinit : git_init_check s = none) (hkne : s.source_checksum ≠ some "") :
    d.map Prod.fst =
      ["source-commit", "source-branch", "source", "source-tag",
       "source-checksum"] ∧
    d.lookup "source-checksum" = some none ∧
    ((truthy s.source_tag = false ∧ truthy s.source_branch = false ∧
        truthy s.source_commit = false) →
      d.lookup "source-commit" =
        some (some
          ((r ["git", "-C", s.source_dir, "rev-parse", "HEAD"]).output))) := by
  have hckf : truthy s.source_checksum = false := by
    unfold git_init_check at hinit
    split at hinit
    · exact absurd hinit (by simp)
    split at hinit
    · exact absurd hinit (by simp)
    split at hinit
    · exact absurd hinit (by simp)
    split at hinit
    · exact absurd hinit (by simp)
    next h4 =>
      cases hb : truthy s.source_checksum with
      | false => rfl
      | true => exact absurd hb h4
  have hck : s.source_checksum = none := by
    cases hkv : s.source_checksum with
    | none => rfl
    | some v =>
      rw [hkv] at hckf
      have hv : v ≠ "" := fun e => hkne (by rw [hkv, e])
      simp [truthy, hv] at hckf
  cases hcond : (!(truthy s.source_tag) && !(truthy s.source_branch) &&
      !(truthy s.source_commit)) with
  | false =>
    simp only [get_source_details, hcond, Bool.false_eq_true, if_false,
      Except.map, Except.ok.injEq] at hok
    subst hok
    refine ⟨by simp, by simp [List.lookup, hck], ?_⟩
    rintro ⟨h1, h2, h3⟩
    rw [h1, h2, h3] at hcond
    simp at hcond
  | true =>
    by_cases hexit :
        (r ["git", "-C", s.source_dir, "rev-parse", "HEAD"]).exit_code = 0
    · simp [get_source_details, run_output, hcond, hexit, Except.map] at hok
      subst hok
      exact ⟨by simp, by simp [List.lookup, hck], fun _ => by simp [List.lookup]⟩
    · simp [get_source_details, run_output, hcond, hexit, Except.map] at hok

/-- Witness for C8: a runner resolving `HEAD` to `deadbeef` on a source
with no selectors. -/
theorem c8_source_details_shape_witness :
    ∃ d, get_source_details (fun _ => ⟨0, "deadbeef"⟩)
        ⟨"u", "d", none, none, none, none, none, none⟩ = Except.ok d ∧
      d.map Prod.fst =
        ["source-commit", "source-branch", "source", "source-tag",
         "source-checksum"] ∧
      d.lookup "source-checksum" = some none ∧
      d.lookup "source-commit" = some (some "deadbeef") := by
  refine ⟨[("source-commit", some "deadbeef"), ("source-branch", none),
    ("source", some "u"), ("source-tag", none), ("source-checksum", none)],
    rfl, ?_⟩
  have h := c8_source_details_shape (fun _ => ⟨0, "deadbeef"⟩)
    ⟨"u", "d", none, none, none, none, none, none⟩
    [("source-commit", some "deadbeef"), ("source-branch", none),
     ("source", some "u"), ("source-tag", none), ("source-checksum", none)]
    rfl rfl (by simp)
  exact ⟨h.1, h.2.1, h.2.2 ⟨rfl, rfl, rfl⟩⟩

/-- C10: `pull` assigns `source_details` only after every command of the
chosen path has succeeded: when it reports a failure the previously
recorded value is unchanged, when it succeeds the new value is the freshly
computed details, and a failure of the chosen command sequence propagates
that exact error with the state untouched. -/
theorem c10_details_assignment_atomic (r : Runner) (is_local : Bool)
    (s : GitSrc) (st : GitState) :
    (∀ e, (pull r is_local s st).2 = some e → (pull r is_local s st).1 = st) ∧
    ((pull r is_local s st).2 = none →
      ∃ d, get_source_details r s = Except.ok d ∧
        (pull r is_local s st).1.source_details = some d) ∧
    (∀ e, runCommands r (if is_local then pull_existing_commands s
          else clone_new_commands s) = Except.error e →
      pull r is_local s st = (st, some e)) := by
  cases hrun : runCommands r (if is_local then pull_existing_commands s
      else clone_new_commands s) with
  | error e0 =>
    refine ⟨fun e he => ?_, fun hn => ?_, fun e he => ?_⟩
    · simp [pull, hrun]
    · simp [pull, hrun] at hn
    · simp only [pull, hrun] at he ⊢
      simp only [Except.error.injEq] at he
      rw [he]
  | ok u =>
    cases hd : get_source_details r s with
    | error e1 =>
      refine ⟨fun e he => ?_, fun hn => ?_, fun e he => ?_⟩
      · simp [pull, hrun, hd]
      · simp [pull, hrun, hd] at hn
      · exact absurd he (by simp)
    | ok d0 =>
      refine ⟨fun e he => ?_, fun hn => ?_, fun e he => ?_⟩
      · simp [pull, hrun, hd] at he
      · exact ⟨d0, rfl, by simp [pull, hrun, hd]⟩
      · exact absurd he (by simp)

/-- Witness for C10: a runner failing every command leaves the previously
recorded details unchanged. -/
theorem c10_details_assignment_atomic_witness :
    (pull (fun _ => ⟨1, "x"⟩) true
        ⟨"u", "d", none, none, none, none, none, none⟩
        ⟨some [("source", some "old")]⟩).1 =
      ⟨some [("source", some "old")]⟩ :=
  (c10_details_assignment_atomic (fun _ => ⟨1, "x"⟩) true
      ⟨"u", "d", none, none, none, none, none, none⟩
      ⟨some [("source", some "old")]⟩).1
    ⟨["git", "-C", "d", "fetch", "--prune", "--recurse-submodules=yes"], 1, "x"⟩
    (by decide)

/-- C9 counterexample: the claim says paths not under the target directory
are passed to the underlying tool unchanged, but `Git.add` decides with a
string-prefix test: `/a/bc` does not fall under the directory `/a/b`, yet
the staged path is rewritten to `../bc` rather than passed unchanged. -/
theorem c9_counterexample :
    ¬ fallsUnderSpec "/a/b" "/a/bc" ∧
    add_command ⟨"u", "/a/b", none, none, none, none, none, none⟩ "/a/bc" =
      ["git", "-C", "/a/b", "add", "../bc"] ∧
    add_command ⟨"u", "/a/b", none, none, none, none, none, none⟩ "/a/bc" ≠
      ["git", "-C", "/a/b", "add", "/a/bc"] := by
  refine ⟨?_, by decide, by decide⟩
  rintro ⟨rest, h, hne⟩
  have h1 : pathComponents "/a/bc" = ["a", "bc"] := by decide
  have h2 : pathComponents "/a/b" = ["a", "b"] := by decide
  rw [h1, h2] at h
  injection h with h3 h4
  injection h4 with h5 h6
  exact absurd h5 (by decide)

/-- C9 amended: the staged path is replaced by its `os.path.relpath`
relative form exactly when the file path string starts with the target
directory (a string-prefix test, not a path-component containment test);
all other paths are passed to the underlying tool unchanged. -/
theorem c9_add_path_normalization (s : GitSrc) (file : String) :
    (s.source_dir.toList.isPrefixOf file.toList = true →
      add_command s file =
        ["git", "-C", s.source_dir, "add", relpath file s.source_dir]) ∧
    (s.source_dir.toList.isPrefixOf file.toList = false →
      add_command s file = ["git", "-C", s.source_dir, "add", file]) := by
  constructor
  · intro h
    simp only [add_command]
    rw [if_pos h]
  · intro h
    simp only [add_command]
    rw [if_neg (by intro hc; rw [h] at hc; exact Bool.noConfusion hc)]

/-- Witness for C9 (amended): a file genuinely inside the target directory
is staged by its relative path. -/
theorem c9_add_path_normalization_witness :
    add_command ⟨"u", "/a/b", none, none, none, none, none, none⟩ "/a/b/c" =
      ["git", "-C", "/a/b", "add",
        relpath "/a/b/c" "/a/b"] ∧
    relpath "/a/b/c" "/a/b" = "c" :=
  ⟨(c9_add_path_normalization
      ⟨"u", "/a/b", none, none, none, none, none, none⟩ "/a/b/c").1 (by decide),
   by decide⟩

end GitSource
